import Mathlib

/-!
Shallow embedding of `langchain_compressa` (embeddings.py and llms.py).

Numbers that the Python code handles as floats are modelled over an abstract
field (instantiated at `ℚ` for concrete evaluation and at `ℝ` when the
Euclidean norm is involved); the float operation `** 0.5` is passed in as an
explicit `sqrt` parameter and instantiated with `Real.sqrt`.  Python operations
that can raise (`ZeroDivisionError`, `IndexError` on `[0]`, `ValueError`, the
`TypeError` from extending `None`) are modelled with `Option` / `Except`.
-/

namespace CompressaModel

/-- Updates the element at position `n` of a list (the Python pattern
`buckets[n].append(x)` on a list of buckets); out-of-range positions leave the
list unchanged. -/
def listModify {β : Type} : List β → Nat → (β → β) → List β
  | [], _, _ => []
  | x :: xs, 0, f => f x :: xs
  | x :: xs, n + 1, f => x :: listModify xs n f

/-- Option-valued map over a list that aborts at the first failure, modelling a
Python list comprehension whose body may raise. -/
def optMapM {β γ : Type} (f : β → Option γ) : List β → Option (List γ)
  | [] => some []
  | x :: xs =>
    match f x with
    | none => none
    | some y => (optMapM f xs).map (fun ys => y :: ys)

/-- Python true division: `a / b` raises `ZeroDivisionError` when `b == 0`,
modelled as `none`. -/
def pydiv {α : Type} [Field α] [DecidableEq α] (a b : α) : Option α :=
  if b = 0 then none else some (a / b)

/-- Number of tuples produced by Python `zip(*ls)`: the length of the shortest
list (zero when `ls` is empty). -/
def pyMinLen {α : Type} : List (List α) → Nat
  | [] => 0
  | l :: rest => rest.foldl (fun m l2 => min m l2.length) l.length

/-- Python `zip(*ls)`: the transpose of `ls` truncated to the shortest row. -/
def pyZipStar {α : Type} [Inhabited α] (ls : List (List α)) : List (List α) :=
  (List.range (pyMinLen ls)).map (fun d => ls.map (fun l => l.getD d default))

/-- Embeds the body of the second loop of `_process_batched_chunked_embeddings`
(embeddings.py lines 60-92) for one text: `chunks` holds the embeddings
collected for the text and `weights` the matching token lengths.  The outer
`none` models a `ZeroDivisionError` aborting the whole call; `some none` is the
sentinel later replaced by the empty-string embedding; `sqrt` stands for the
float operation `** 0.5` in `magnitude = sum(val**2 for val in average) ** 0.5`. -/
def aggregateOne {α : Type} [Field α] [DecidableEq α] [Inhabited α] (sqrt : α → α)
    (chunks : List (List α)) (weights : List Nat) : Option (Option (List α)) :=
  match chunks with
  | [] => some none
  | [e] => some (some e)
  | _ =>
    let totalWeight : α := (weights.sum : α)
    match optMapM
        (fun row => pydiv (((row.zip weights).map (fun p => p.1 * (p.2 : α))).sum) totalWeight)
        (pyZipStar chunks) with
    | none => none
    | some average =>
      let magnitude := sqrt ((average.map (fun v => v * v)).sum)
      match optMapM (fun v => pydiv v magnitude) average with
      | none => none
      | some result => some (some result)

/-- Embeds one iteration of the first loop of `_process_batched_chunked_embeddings`
(embeddings.py lines 52-56): chunk `j` is appended to the buckets of text
`indices[j]`, unless `skip_empty` is set and the chunk's embedding has length 1. -/
def collectStep {α τ : Type} (tokens : List (List τ)) (batched : List (List α))
    (indices : List Nat) (skipEmpty : Bool)
    (st : List (List (List α)) × List (List Nat)) (j : Nat) :
    List (List (List α)) × List (List Nat) :=
  if skipEmpty && (batched.getD j []).length == 1 then st
  else
    (listModify st.1 (indices.getD j 0) (fun l => l ++ [batched.getD j []]),
     listModify st.2 (indices.getD j 0) (fun l => l ++ [(tokens.getD j []).length]))

/-- Embeds the first loop of `_process_batched_chunked_embeddings`
(embeddings.py lines 45-56): per-text buckets of chunk embeddings and of chunk
token lengths. -/
def collectChunks {α τ : Type} (numTexts : Nat) (tokens : List (List τ))
    (batched : List (List α)) (indices : List Nat) (skipEmpty : Bool) :
    List (List (List α)) × List (List Nat) :=
  (List.range indices.length).foldl (collectStep tokens batched indices skipEmpty)
    (List.replicate numTexts [], List.replicate numTexts [])

/-- Embeds `_process_batched_chunked_embeddings` (embeddings.py lines 36-94).
`none` models the call aborting with a `ZeroDivisionError`; inside a successful
result, `none` entries are the sentinels for texts that produced no chunks. -/
def processBatchedChunkedEmbeddings {α τ : Type} [Field α] [DecidableEq α] [Inhabited α]
    (sqrt : α → α) (numTexts : Nat) (tokens : List (List τ)) (batched : List (List α))
    (indices : List Nat) (skipEmpty : Bool) : Option (List (Option (List α))) :=
  let st := collectChunks numTexts tokens batched indices skipEmpty
  optMapM (fun i => aggregateOne sqrt (st.1.getD i []) (st.2.getD i [])) (List.range numTexts)

/-- Positions `j` of the chunks that participate in the aggregation for text
`i`: origin index equal to `i` and not skipped by the `skip_empty` test. -/
def keptChunkIdxs {α : Type} (batched : List (List α)) (indices : List Nat)
    (skipEmpty : Bool) (i : Nat) : List Nat :=
  (List.range indices.length).filter
    (fun j => !(skipEmpty && (batched.getD j []).length == 1) && indices.getD j 0 == i)

/-- Embeddings of the chunks that participate in the aggregation for text `i`. -/
def selEmbeddings {α : Type} (batched : List (List α)) (indices : List Nat)
    (skipEmpty : Bool) (i : Nat) : List (List α) :=
  (keptChunkIdxs batched indices skipEmpty i).map (fun j => batched.getD j [])

/-- Token lengths of the chunks that participate in the aggregation for text `i`. -/
def selTokenLens {α τ : Type} (tokens : List (List τ)) (batched : List (List α))
    (indices : List Nat) (skipEmpty : Bool) (i : Nat) : List Nat :=
  (keptChunkIdxs batched indices skipEmpty i).map (fun j => (tokens.getD j []).length)

/-- Embeds the sentinel-replacement post-pass of `_get_len_safe_embeddings`
(embeddings.py lines 310-323): the closure `empty_embedding` calls the client on
the first sentinel and caches the result (`emptyResp` is the embedding the
client returns for the empty string).  The second component counts the
empty-string client calls that were issued. -/
def fillStep {α : Type} (emptyResp : List α)
    (st : List (List α) × Option (List α) × Nat) (e : Option (List α)) :
    List (List α) × Option (List α) × Nat :=
  match e with
  | some v => (st.1 ++ [v], st.2.1, st.2.2)
  | none =>
    match st.2.1 with
    | some c => (st.1 ++ [c], some c, st.2.2)
    | none => (st.1 ++ [emptyResp], some emptyResp, st.2.2 + 1)

/-- Wraps `fillStep` over the whole sentinel list: the final embeddings and the
number of empty-string client calls issued. -/
def fillEmptyEmbeddings {α : Type} (emptyResp : List α) (es : List (Option (List α))) :
    List (List α) × Nat :=
  let r := es.foldl (fillStep emptyResp) ([], none, 0)
  (r.1, r.2.2)

/-- Python `[xs[j:j+L] for j in range(0, len(xs), L)]` (for `L ≥ 1`): the slice
pattern used by `_tokenize` (embeddings.py lines 262-265), by the batch windows
of `_get_len_safe_embeddings` (line 301) and by `get_sub_prompts`
(llms.py lines 429-432). -/
def chunkSlices {γ : Type} (L : Nat) (xs : List γ) : List (List γ) :=
  (List.range ((xs.length + L - 1) / L)).map (fun k => (xs.drop (k * L)).take L)

/-- Embeds the per-text loop of `_tokenize` (embeddings.py lines 255-265),
carrying the ordinal `i` of the next text: each chunk of the encoded text is
appended to `tokens` and its origin ordinal to `indices`. -/
def tokenizeAux {σ τ : Type} (encode : σ → List τ) (L : Nat) :
    Nat → List σ → List (List τ) × List Nat
  | _, [] => ([], [])
  | i, t :: ts =>
    let cs := chunkSlices L (encode t)
    let rest := tokenizeAux encode L (i + 1) ts
    (cs ++ rest.1, List.replicate cs.length i ++ rest.2)

/-- Embeds the chunk-planning part of `_tokenize` (embeddings.py lines 210-265):
returns the flat chunk list and the parallel origin-index list. -/
def tokenizeTexts {σ τ : Type} (encode : σ → List τ) (L : Nat) (texts : List σ) :
    List (List τ) × List Nat :=
  tokenizeAux encode L 0 texts

/-- Abstraction of the remote embedding client (`self.client` / `self.async_client`),
an external collaborator: each field returns the list of embeddings extracted from
the `data` list of the response for one `create` call.  `createBatch` is the call
with a list of chunks as input, `createText` the call with a raw text as input
(used when `check_embedding_ctx_length` is off), `createEmpty` the call with the
empty string as input. -/
structure EmbClient (σ τ α : Type) where
  createBatch : List (List τ) → List (List α)
  createText : σ → List (List α)
  createEmpty : List α

/-- Embeds `_get_len_safe_embeddings` (embeddings.py lines 278-323): tokenize
and chunk the texts, dispatch the chunk batches, aggregate the chunk embeddings
and substitute the cached empty-string embedding for the sentinels.  Returns the
per-text embeddings together with the number of empty-string client calls
issued; `none` models the call aborting with a `ZeroDivisionError`. -/
def getLenSafeEmbeddings {σ τ α : Type} [Field α] [DecidableEq α] [Inhabited α]
    (C : EmbClient σ τ α) (encode : σ → List τ) (sqrt : α → α)
    (ctxLen chunkSize : Nat) (skipEmpty : Bool) (texts : List σ) :
    Option (List (List α) × Nat) :=
  let tk := tokenizeTexts encode ctxLen texts
  let batched := (chunkSlices chunkSize tk.1).flatMap C.createBatch
  match processBatchedChunkedEmbeddings sqrt texts.length tk.1 batched tk.2 skipEmpty with
  | none => none
  | some es => some (fillEmptyEmbeddings C.createEmpty es)

/-- Embeds `_aget_len_safe_embeddings` (embeddings.py lines 325-372); the
asynchronous code performs the same sequential computation as the synchronous
one, awaiting each batch before the next. -/
def agetLenSafeEmbeddings {σ τ α : Type} [Field α] [DecidableEq α] [Inhabited α]
    (C : EmbClient σ τ α) (encode : σ → List τ) (sqrt : α → α)
    (ctxLen chunkSize : Nat) (skipEmpty : Bool) (texts : List σ) :
    Option (List (List α) × Nat) :=
  let tk := tokenizeTexts encode ctxLen texts
  let batched := (chunkSlices chunkSize tk.1).flatMap C.createBatch
  match processBatchedChunkedEmbeddings sqrt texts.length tk.1 batched tk.2 skipEmpty with
  | none => none
  | some es => some (fillEmptyEmbeddings C.createEmpty es)

/-- Embeds `embed_documents` (embeddings.py lines 374-401): when
`check_embedding_ctx_length` is off, one direct client call per text and the
`data` embeddings are concatenated; otherwise the length-safe pipeline. -/
def embedDocuments {σ τ α : Type} [Field α] [DecidableEq α] [Inhabited α]
    (C : EmbClient σ τ α) (encode : σ → List τ) (sqrt : α → α)
    (ctxLen chunkSize : Nat) (skipEmpty checkCtx : Bool) (texts : List σ) :
    Option (List (List α)) :=
  if checkCtx then
    (getLenSafeEmbeddings C encode sqrt ctxLen chunkSize skipEmpty texts).map Prod.fst
  else
    some ((texts.map C.createText).flatten)

/-- Embeds `embed_query` (embeddings.py lines 403-412):
`self.embed_documents([text])[0]`, where the `[0]` indexing raises on an empty
list (modelled by `List.head?`). -/
def embedQuery {σ τ α : Type} [Field α] [DecidableEq α] [Inhabited α]
    (C : EmbClient σ τ α) (encode : σ → List τ) (sqrt : α → α)
    (ctxLen chunkSize : Nat) (skipEmpty checkCtx : Bool) (text : σ) : Option (List α) :=
  (embedDocuments C encode sqrt ctxLen chunkSize skipEmpty checkCtx [text]).bind List.head?

/-- Embeds `aembed_documents` (embeddings.py lines 414-441). -/
def aembedDocuments {σ τ α : Type} [Field α] [DecidableEq α] [Inhabited α]
    (C : EmbClient σ τ α) (encode : σ → List τ) (sqrt : α → α)
    (ctxLen chunkSize : Nat) (skipEmpty checkCtx : Bool) (texts : List σ) :
    Option (List (List α)) :=
  if checkCtx then
    (agetLenSafeEmbeddings C encode sqrt ctxLen chunkSize skipEmpty texts).map Prod.fst
  else
    some ((texts.map C.createText).flatten)

/-- Embeds `aembed_query` (embeddings.py lines 444-454):
`(await self.aembed_documents([text]))[0]`. -/
def aembedQuery {σ τ α : Type} [Field α] [DecidableEq α] [Inhabited α]
    (C : EmbClient σ τ α) (encode : σ → List τ) (sqrt : α → α)
    (ctxLen chunkSize : Nat) (skipEmpty checkCtx : Bool) (text : σ) : Option (List α) :=
  (aembedDocuments C encode sqrt ctxLen chunkSize skipEmpty checkCtx [text]).bind List.head?

/-- Specification-side definition, following the spec's words (section 4.4):
per output dimension `d`, the token-count-weighted sum over matching chunks of
`embedding[chunk][d] * tokenLength[chunk]`, divided by the sum of token lengths. -/
def specWeightedAverage {α : Type} [Field α] (chunks : List (List α)) (weights : List Nat) :
    List α :=
  (List.range (chunks.headD []).length).map (fun d =>
    ((chunks.zip weights).map (fun p => p.1.getD d 0 * (p.2 : α))).sum / (weights.sum : α))

/-- Specification-side definition, following the spec's words (section 4.4 and
glossary): divide every component of the vector by its Euclidean norm, the
square root of the sum of the squared components (`sqrt` is instantiated with
`Real.sqrt` in the theorems). -/
def specL2Normalize {α : Type} [Field α] (sqrt : α → α) (v : List α) : List α :=
  v.map (fun x => x / sqrt ((v.map (fun y => y * y)).sum))

/-! ## Completion model (llms.py) -/

/-- One element of the `choices` list of a completion response, with the fields
used by `_generate` / `create_llm_result`. -/
structure CompletionChoice where
  text : String
  finishReason : Option String
  logprobs : Option String
deriving DecidableEq

/-- A non-streaming completion response: `error` models a truthy
`response.get("error")` payload; `choices` is `none` when the response carries
`"choices": null` (the situation described by the comment in `_generate`);
`usage` is the named token counters. -/
structure CompletionResponse where
  error : Option String
  choices : Option (List CompletionChoice)
  usage : List (String × Nat)
deriving DecidableEq

/-- One partial response of a streaming completion. -/
structure StreamResponse where
  choices : List CompletionChoice
deriving DecidableEq

/-- An incremental generation object: the running text and, when present, the
pair (finish reason, logprobs) from the latest delta carrying metadata. -/
structure GenerationChunk where
  text : String
  info : Option (Option String × Option String)
deriving DecidableEq

/-- Errors that abort a top-level completion call. -/
inductive GenError where
  | apiError (msg : String)
  | choicesNone
  | multiPromptStream
  | emptyStream
  | stopConflict
  | maxTokensMinusOne
deriving DecidableEq

/-- Embeds `_stream_response_to_generation_chunk` (llms.py lines 55-67): an
empty `choices` list gives an empty chunk without metadata. -/
def streamResponseToGenerationChunk (r : StreamResponse) : GenerationChunk :=
  match r.choices with
  | [] => { text := "", info := none }
  | c :: _ => { text := c.text, info := some (c.finishReason, c.logprobs) }

/-- Concatenation of generation chunks, modelling the orchestration framework's
`GenerationChunk.__add__` (an external collaborator; the spec, section 4.5, only
fixes that text deltas are concatenated): texts are concatenated and the latest
available metadata is kept. -/
def chunkAdd (a b : GenerationChunk) : GenerationChunk :=
  { text := a.text ++ b.text,
    info :=
      match a.info, b.info with
      | none, i => i
      | some x, none => some x
      | some _, some y => some y }

/-- Embeds the streaming branch of `_generate` for one prompt
(llms.py lines 304-325): the stream responses are converted to chunks and
accumulated; an empty stream trips the `assert generation is not None`. -/
def streamPrompt (streamClient : String → List StreamResponse) (p : String) :
    Except GenError CompletionChoice :=
  match (streamClient p).map streamResponseToGenerationChunk with
  | [] => .error .emptyStream
  | c :: cs =>
    let g := cs.foldl chunkAdd c
    .ok { text := g.text,
          finishReason := match g.info with | none => none | some x => x.1,
          logprobs := match g.info with | none => none | some x => x.2 }

/-- The usage counter names accumulated by `_generate` (llms.py line 297). -/
def usageKeys : List String := ["completion_tokens", "prompt_tokens", "total_tokens"]

/-- Association-list lookup for a usage counter. -/
def lookupUsage (k : String) (u : List (String × Nat)) : Option Nat :=
  (u.find? (fun p => p.1 == k)).map (fun p => p.2)

/-- Embeds `_update_token_usage` (llms.py lines 43-52): for every key present in
both the key set and the response's usage, add the response's value into the
accumulated counters. -/
def updateTokenUsage (keys : List String) (respUsage acc : List (String × Nat)) :
    List (String × Nat) :=
  keys.foldl
    (fun a k =>
      match lookupUsage k respUsage with
      | none => a
      | some v =>
        match lookupUsage k a with
        | none => a ++ [(k, v)]
        | some w => a.map (fun p => if p.1 == k then (p.1, w + v) else p))
    acc

/-- Embeds `get_sub_prompts` (llms.py lines 412-433): the `stop` conflict and
`max_tokens == -1` checks, then the prompts windowed into batches of
`batch_size`.  `stopGiven` models `stop is not None` and `stopInParams` models
`"stop" in params`. -/
def getSubPrompts (batchSize : Nat) (maxTokens : Int) (stopGiven stopInParams : Bool)
    (prompts : List String) : Except GenError (List (List String)) :=
  if stopGiven && stopInParams then .error .stopConflict
  else if maxTokens == -1 && prompts.length != 1 then .error .maxTokensMinusOne
  else .ok (chunkSlices batchSize prompts)

/-- Embeds `create_llm_result` (llms.py lines 435-464): the flat choices list is
reshaped into one group of `n` consecutive choices per prompt. -/
def createLLMResult (n : Nat) (prompts : List String) (choices : List CompletionChoice) :
    List (List CompletionChoice) :=
  (List.range prompts.length).map (fun i => (choices.drop (i * n)).take n)

/-- Embeds the synchronous `_generate` (llms.py lines 268-350): for each
sub-prompt batch, either the streaming accumulation (rejecting batches with more
than one prompt) or one client call whose truthy `error` field aborts the call
and whose `choices` are accumulated; finally the choices are reshaped per
prompt.  Returns the reshaped generations and the accumulated token usage. -/
def generateModel (client : List String → CompletionResponse)
    (streamClient : String → List StreamResponse) (streaming : Bool)
    (batchSize n : Nat) (maxTokens : Int) (stopGiven stopInParams : Bool)
    (prompts : List String) :
    Except GenError (List (List CompletionChoice) × List (String × Nat)) := do
  let subPrompts ← getSubPrompts batchSize maxTokens stopGiven stopInParams prompts
  let st ← subPrompts.foldlM
    (fun (st : List CompletionChoice × List (String × Nat)) ps => do
      if streaming then
        if ps.length > 1 then
          throw GenError.multiPromptStream
        else do
          let c ← streamPrompt streamClient (ps.getD 0 "")
          pure (st.1 ++ [c], st.2)
      else
        let resp := client ps
        match resp.error with
        | some e => throw (GenError.apiError e)
        | none =>
          match resp.choices with
          | none => throw GenError.choicesNone
          | some cs => pure (st.1 ++ cs, updateTokenUsage usageKeys resp.usage st.2))
    ([], [])
  pure (createLLMResult n prompts st.1, st.2)

/-- Embeds the asynchronous `_agenerate` (llms.py lines 352-410).  Unlike the
synchronous `_generate`, the code has no check of the response's `error` field:
a response carrying both an `error` payload and a `choices` list is consumed as
if it were successful. -/
def agenerateModel (client : List String → CompletionResponse)
    (streamClient : String → List StreamResponse) (streaming : Bool)
    (batchSize n : Nat) (maxTokens : Int) (stopGiven stopInParams : Bool)
    (prompts : List String) :
    Except GenError (List (List CompletionChoice) × List (String × Nat)) := do
  let subPrompts ← getSubPrompts batchSize maxTokens stopGiven stopInParams prompts
  let st ← subPrompts.foldlM
    (fun (st : List CompletionChoice × List (String × Nat)) ps => do
      if streaming then
        if ps.length > 1 then
          throw GenError.multiPromptStream
        else do
          let c ← streamPrompt streamClient (ps.getD 0 "")
          pure (st.1 ++ [c], st.2)
      else
        let resp := client ps
        match resp.choices with
        | none => throw GenError.choicesNone
        | some cs => pure (st.1 ++ cs, updateTokenUsage usageKeys resp.usage st.2))
    ([], [])
  pure (createLLMResult n prompts st.1, st.2)

/-- Embeds the parameter checks of `validate_environment` (llms.py lines
143-151), run at construction time before any client exists. -/
def validateEnvironment (streaming : Bool) (n bestOf : Nat) : Except String Unit :=
  if n < 1 then .error "n must be at least 1."
  else if streaming && n > 1 then .error "Cannot stream results when n > 1."
  else if streaming && bestOf > 1 then .error "Cannot stream results when best_of > 1."
  else .ok ()

/-! ## Helper lemmas -/

theorem listModify_length {β : Type} (l : List β) (n : Nat) (f : β → β) :
    (listModify l n f).length = l.length := by
  induction l generalizing n with
  | nil => rfl
  | cons x xs ih =>
    cases n with
    | zero => rfl
    | succ m => simp [listModify, ih]

theorem listModify_getD {β : Type} (l : List β) (n i : Nat) (f : β → β) (d : β)
    (hi : i < l.length) :
    (listModify l n f).getD i d = if n = i then f (l.getD i d) else l.getD i d := by
  induction l generalizing n i with
  | nil => simp at hi
  | cons x xs ih =>
    cases n with
    | zero =>
      cases i with
      | zero => simp [listModify]
      | succ j => simp [listModify]
    | succ m =>
      cases i with
      | zero => simp [listModify]
      | succ j =>
        simp only [listModify, List.getD_cons_succ]
        rw [ih m j (by simpa using hi)]
        simp [Nat.succ_inj]

theorem optMapM_congr {β γ : Type} {f g : β → Option γ} (l : List β)
    (h : ∀ x ∈ l, f x = g x) : optMapM f l = optMapM g l := by
  induction l with
  | nil => rfl
  | cons x xs ih =>
    simp only [optMapM]
    rw [h x (by simp), ih (fun y hy => h y (by simp [hy]))]

theorem optMapM_eq_some {β γ : Type} {f : β → Option γ} {l : List β} {es : List γ}
    (h : optMapM f l = some es) :
    es.length = l.length ∧
      ∀ i d d2, i < l.length → f (l.getD i d) = some (es.getD i d2) := by
  induction l generalizing es with
  | nil =>
    simp only [optMapM, Option.some_inj] at h
    subst h
    exact ⟨rfl, by intro i d d2 hi; simp at hi⟩
  | cons x xs ih =>
    simp only [optMapM] at h
    cases hfx : f x with
    | none => rw [hfx] at h; simp at h
    | some y =>
      rw [hfx] at h
      cases hrest : optMapM f xs with
      | none => rw [hrest] at h; simp at h
      | some ys =>
        rw [hrest] at h
        have h' : y :: ys = es := by simpa using h
        subst h'
        obtain ⟨hlen, hidx⟩ := ih hrest
        refine ⟨by simp [hlen], ?_⟩
        intro i d d2 hi
        cases i with
        | zero => simpa using hfx
        | succ j => simpa using hidx j d d2 (by simpa using hi)

theorem optMapM_map_some {β γ : Type} {f : β → Option γ} {g : β → γ} (l : List β)
    (h : ∀ x ∈ l, f x = some (g x)) : optMapM f l = some (l.map g) := by
  induction l with
  | nil => rfl
  | cons x xs ih =>
    simp [optMapM, h x (by simp), ih (fun y hy => h y (by simp [hy]))]

theorem getD_range_map {γ : Type} (f : Nat → γ) (n m : Nat) (d : γ) (h : m < n) :
    ((List.range n).map f).getD m d = f m := by
  rw [List.getD_eq_getElem _ _ (by simpa using h), List.getElem_map, List.getElem_range]

theorem getD_map_of_lt {β γ : Type} (f : β → γ) (l : List β) (i : Nat) (d : γ) (db : β)
    (h : i < l.length) : (l.map f).getD i d = f (l.getD i db) := by
  rw [List.getD_eq_getElem _ _ (by simpa using h), List.getElem_map,
    List.getD_eq_getElem _ _ h]

theorem getD_replicate_self {β : Type} (n i : Nat) (d : β) :
    (List.replicate n d).getD i d = d := by
  by_cases h : i < n
  · rw [List.getD_eq_getElem _ _ (by simpa using h)]
    simp
  · rw [List.getD_eq_default]
    simpa using Nat.le_of_not_lt h

theorem getD_mem_of_lt {β : Type} (l : List β) (i : Nat) (d : β) (h : i < l.length) :
    l.getD i d ∈ l := by
  rw [List.getD_eq_getElem _ _ h]
  exact List.getElem_mem h

theorem collectStep_skip {α τ : Type} {tokens : List (List τ)} {batched : List (List α)}
    {indices : List Nat} {skipEmpty : Bool}
    (st : List (List (List α)) × List (List Nat)) {j : Nat}
    (h : (skipEmpty && (batched.getD j []).length == 1) = true) :
    collectStep tokens batched indices skipEmpty st j = st := by
  unfold collectStep
  rw [h]
  rfl

theorem collectStep_keep {α τ : Type} {tokens : List (List τ)} {batched : List (List α)}
    {indices : List Nat} {skipEmpty : Bool}
    (st : List (List (List α)) × List (List Nat)) {j : Nat}
    (h : (skipEmpty && (batched.getD j []).length == 1) = false) :
    collectStep tokens batched indices skipEmpty st j =
      (listModify st.1 (indices.getD j 0) (fun l => l ++ [batched.getD j []]),
       listModify st.2 (indices.getD j 0) (fun l => l ++ [(tokens.getD j []).length])) := by
  unfold collectStep
  rw [h]
  rfl

theorem collectStep_lengths {α τ : Type} (tokens : List (List τ)) (batched : List (List α))
    (indices : List Nat) (skipEmpty : Bool)
    (st : List (List (List α)) × List (List Nat)) (j : Nat) :
    (collectStep tokens batched indices skipEmpty st j).1.length = st.1.length ∧
    (collectStep tokens batched indices skipEmpty st j).2.length = st.2.length := by
  unfold collectStep
  split
  · exact ⟨rfl, rfl⟩
  · exact ⟨listModify_length .., listModify_length ..⟩

theorem collectFold_lengths {α τ : Type} (tokens : List (List τ)) (batched : List (List α))
    (indices : List Nat) (skipEmpty : Bool) (js : List Nat)
    (st : List (List (List α)) × List (List Nat)) :
    (js.foldl (collectStep tokens batched indices skipEmpty) st).1.length = st.1.length ∧
    (js.foldl (collectStep tokens batched indices skipEmpty) st).2.length = st.2.length := by
  induction js generalizing st with
  | nil => exact ⟨rfl, rfl⟩
  | cons j js ih =>
    have h := ih (collectStep tokens batched indices skipEmpty st j)
    have h2 := collectStep_lengths tokens batched indices skipEmpty st j
    simp only [List.foldl_cons]
    exact ⟨h.1.trans h2.1, h.2.trans h2.2⟩

/-- Characterization of the first loop of `_process_batched_chunked_embeddings`:
after the first `m` iterations, the bucket of text `i` holds exactly the
non-skipped chunks with origin index `i`, in order. -/
theorem collectChunks_prefix {α τ : Type} (numTexts : Nat) (tokens : List (List τ))
    (batched : List (List α)) (indices : List Nat) (skipEmpty : Bool) (i : Nat)
    (hi : i < numTexts) (m : Nat) :
    ((List.range m).foldl (collectStep tokens batched indices skipEmpty)
        (List.replicate numTexts [], List.replicate numTexts [])).1.getD i [] =
      ((List.range m).filter
        (fun j => !(skipEmpty && (batched.getD j []).length == 1) && indices.getD j 0 == i)).map
        (fun j => batched.getD j []) ∧
    ((List.range m).foldl (collectStep tokens batched indices skipEmpty)
        (List.replicate numTexts [], List.replicate numTexts [])).2.getD i [] =
      ((List.range m).filter
        (fun j => !(skipEmpty && (batched.getD j []).length == 1) && indices.getD j 0 == i)).map
        (fun j => (tokens.getD j []).length) := by
  induction m with
  | zero => simp [getD_replicate_self]
  | succ m ih =>
    have hlen := collectFold_lengths tokens batched indices skipEmpty (List.range m)
      (List.replicate numTexts [], List.replicate numTexts [])
    rw [List.range_succ, List.foldl_append, List.filter_append]
    simp only [List.foldl_cons, List.foldl_nil, List.filter_cons, List.filter_nil]
    by_cases hskip : (skipEmpty && (batched.getD m []).length == 1) = true
    · have hpred : (!(skipEmpty && (batched.getD m []).length == 1) &&
          indices.getD m 0 == i) = false := by
        rw [hskip]
        rfl
      rw [hpred, collectStep_skip _ hskip]
      simp only [Bool.false_eq_true, if_false, List.append_nil]
      exact ih
    · have hskip' : (skipEmpty && (batched.getD m []).length == 1) = false :=
        Bool.eq_false_iff.mpr hskip
      by_cases hidx : indices.getD m 0 = i
      · have hpred : (!(skipEmpty && (batched.getD m []).length == 1) &&
            indices.getD m 0 == i) = true := by
          rw [hskip']
          simp only [Bool.not_false, Bool.true_and]
          exact beq_iff_eq.mpr hidx
        rw [hpred, collectStep_keep _ hskip']
        simp only [if_true, List.map_append, List.map_cons, List.map_nil]
        rw [hidx]
        constructor
        · rw [listModify_getD _ i i _ _ (by rw [hlen.1]; simpa using hi), if_pos rfl, ih.1]
        · rw [listModify_getD _ i i _ _ (by rw [hlen.2]; simpa using hi), if_pos rfl, ih.2]
      · have hpred : (!(skipEmpty && (batched.getD m []).length == 1) &&
            indices.getD m 0 == i) = false := by
          rw [hskip']
          simp only [Bool.not_false, Bool.true_and]
          exact beq_eq_false_iff_ne.mpr hidx
        rw [hpred, collectStep_keep _ hskip']
        simp only [Bool.false_eq_true, if_false, List.append_nil]
        constructor
        · rw [listModify_getD _ _ i _ _ (by rw [hlen.1]; simpa using hi), if_neg hidx, ih.1]
        · rw [listModify_getD _ _ i _ _ (by rw [hlen.2]; simpa using hi), if_neg hidx, ih.2]

/-- The buckets built by the first loop are exactly the participating chunks of
each text. -/
theorem collectChunks_getD {α τ : Type} (numTexts : Nat) (tokens : List (List τ))
    (batched : List (List α)) (indices : List Nat) (skipEmpty : Bool) (i : Nat)
    (hi : i < numTexts) :
    (collectChunks numTexts tokens batched indices skipEmpty).1.getD i [] =
      selEmbeddings batched indices skipEmpty i ∧
    (collectChunks numTexts tokens batched indices skipEmpty).2.getD i [] =
      selTokenLens tokens batched indices skipEmpty i :=
  collectChunks_prefix numTexts tokens batched indices skipEmpty i hi indices.length

/-- The aggregation loop computes, for each text `i` in order, the aggregation
of exactly the participating chunks of text `i`. -/
theorem process_eq_aggregate {α τ : Type} [Field α] [DecidableEq α] [Inhabited α]
    (sqrt : α → α) (numTexts : Nat) (tokens : List (List τ)) (batched : List (List α))
    (indices : List Nat) (skipEmpty : Bool) :
    processBatchedChunkedEmbeddings sqrt numTexts tokens batched indices skipEmpty =
      optMapM
        (fun i => aggregateOne sqrt (selEmbeddings batched indices skipEmpty i)
          (selTokenLens tokens batched indices skipEmpty i))
        (List.range numTexts) := by
  unfold processBatchedChunkedEmbeddings
  exact optMapM_congr (List.range numTexts) (fun i hi => by
    have h := collectChunks_getD numTexts tokens batched indices skipEmpty i
      (List.mem_range.mp hi)
    rw [h.1, h.2])

theorem fillFold_cached {α : Type} (emptyResp : List α) (es : List (Option (List α))) :
    ∀ (acc : List (List α)) (calls : Nat),
      es.foldl (fillStep emptyResp) (acc, some emptyResp, calls) =
        (acc ++ es.map (fun e => e.getD emptyResp), some emptyResp, calls) := by
  induction es with
  | nil => intro acc calls; simp
  | cons e es ih =>
    intro acc calls
    cases e with
    | some v =>
      simp only [List.foldl_cons, fillStep]
      rw [ih]
      simp
    | none =>
      simp only [List.foldl_cons, fillStep]
      rw [ih]
      simp

theorem fillFold_uncached {α : Type} (emptyResp : List α) (es : List (Option (List α))) :
    ∀ (acc : List (List α)) (calls : Nat),
      es.foldl (fillStep emptyResp) (acc, none, calls) =
        (acc ++ es.map (fun e => e.getD emptyResp),
         if es.any (fun e => e.isNone) then some emptyResp else none,
         calls + (if es.any (fun e => e.isNone) then 1 else 0)) := by
  induction es with
  | nil => intro acc calls; simp
  | cons e es ih =>
    intro acc calls
    cases e with
    | some v =>
      simp only [List.foldl_cons, fillStep]
      rw [ih]
      simp only [List.map_cons, Option.getD_some, List.any_cons, Option.isNone_some,
        Bool.false_or, List.append_assoc, List.singleton_append]
    | none =>
      simp only [List.foldl_cons, fillStep]
      rw [fillFold_cached]
      simp only [List.map_cons, Option.getD_none, List.any_cons, Option.isNone_none,
        Bool.true_or, List.append_assoc, List.singleton_append, if_true]

/-- The post-pass replaces each sentinel with the empty-string embedding and
keeps every other embedding in place. -/
theorem fillEmptyEmbeddings_fst {α : Type} (emptyResp : List α)
    (es : List (Option (List α))) :
    (fillEmptyEmbeddings emptyResp es).1 = es.map (fun e => e.getD emptyResp) := by
  unfold fillEmptyEmbeddings
  rw [fillFold_uncached]
  rfl

/-- The closure cache issues at most one empty-string client call. -/
theorem fillEmptyEmbeddings_calls_le_one {α : Type} (emptyResp : List α)
    (es : List (Option (List α))) :
    (fillEmptyEmbeddings emptyResp es).2 ≤ 1 := by
  unfold fillEmptyEmbeddings
  rw [fillFold_uncached]
  by_cases h : es.any (fun e => e.isNone) <;> simp [h]

theorem chunkSlices_nil {γ : Type} (L : Nat) : chunkSlices L ([] : List γ) = [] := by
  have h : (([] : List γ).length + L - 1) / L = 0 := by
    cases L with
    | zero => simp
    | succ m =>
      apply Nat.div_eq_of_lt
      simp only [List.length_nil]
      omega
  unfold chunkSlices
  rw [h]
  rfl

theorem tokenizeAux_count {σ τ : Type} [Inhabited σ] (encode : σ → List τ) (L : Nat)
    (ts : List σ) : ∀ (s i : Nat),
    (tokenizeAux encode L s ts).2.count i =
      if s ≤ i ∧ i < s + ts.length then
        (chunkSlices L (encode (ts.getD (i - s) default))).length
      else 0 := by
  induction ts with
  | nil =>
    intro s i
    have h : ¬(s ≤ i ∧ i < s + ([] : List σ).length) := by
      simp only [List.length_nil, Nat.add_zero]
      omega
    rw [if_neg h]
    rfl
  | cons t ts ih =>
    intro s i
    show (List.replicate (chunkSlices L (encode t)).length s ++
        (tokenizeAux encode L (s + 1) ts).2).count i = _
    rw [List.count_append, List.count_replicate, ih (s + 1) i]
    by_cases hs : s = i
    · subst hs
      rw [if_pos (beq_self_eq_true s)]
      rw [if_neg (by omega)]
      rw [if_pos ⟨by omega, by simp only [List.length_cons]; omega⟩]
      simp
    · rw [if_neg (by simp [hs])]
      by_cases hin : s + 1 ≤ i ∧ i < s + 1 + ts.length
      · rw [if_pos hin]
        rw [if_pos ⟨by omega, by simp only [List.length_cons]; omega⟩]
        have hx : i - s = (i - (s + 1)) + 1 := by omega
        rw [hx]
        simp
      · rw [if_neg hin]
        rw [if_neg (by simp only [List.length_cons]; omega)]

/-- A text that encodes to zero tokens contributes no origin index entry. -/
theorem tokenize_count_eq_zero {σ τ : Type} [Inhabited σ] (encode : σ → List τ) (L : Nat)
    (texts : List σ) (i : Nat) (hi : i < texts.length)
    (hempty : encode (texts.getD i default) = []) :
    (tokenizeTexts encode L texts).2.count i = 0 := by
  unfold tokenizeTexts
  rw [tokenizeAux_count]
  rw [if_pos ⟨Nat.zero_le i, by simpa using hi⟩]
  simp only [Nat.sub_zero, hempty, chunkSlices_nil, List.length_nil]

/-- No chunk participates for a text whose index never occurs in `indices`. -/
theorem keptChunkIdxs_eq_nil {α : Type} (batched : List (List α)) (indices : List Nat)
    (skipEmpty : Bool) (i : Nat) (h : i ∉ indices) :
    keptChunkIdxs batched indices skipEmpty i = [] := by
  unfold keptChunkIdxs
  rw [List.filter_eq_nil_iff]
  intro j hj
  have hjlen : j < indices.length := List.mem_range.mp hj
  have hmem : indices.getD j 0 ∈ indices := getD_mem_of_lt indices j 0 hjlen
  have hne : (indices.getD j 0 == i) = false :=
    beq_eq_false_iff_ne.mpr (fun he => h (he ▸ hmem))
  rw [hne, Bool.and_false]
  exact Bool.false_ne_true

theorem foldl_min_const {α : Type} (D : Nat) (cs : List (List α))
    (h : ∀ e ∈ cs, e.length = D) : cs.foldl (fun m l2 => min m l2.length) D = D := by
  induction cs with
  | nil => rfl
  | cons c cs ih =>
    simp only [List.foldl_cons, h c (by simp), min_self]
    exact ih (fun e he => h e (by simp [he]))

theorem pyMinLen_const {α : Type} (chunks : List (List α)) (D : Nat)
    (hne : chunks ≠ []) (hD : ∀ e ∈ chunks, e.length = D) : pyMinLen chunks = D := by
  cases chunks with
  | nil => exact absurd rfl hne
  | cons c cs =>
    show cs.foldl (fun m l2 => min m l2.length) c.length = D
    rw [hD c (by simp)]
    exact foldl_min_const D cs (fun e he => hD e (by simp [he]))

theorem pydiv_of_ne {α : Type} [Field α] [DecidableEq α] (a : α) {b : α} (h : b ≠ 0) :
    pydiv a b = some (a / b) := by
  unfold pydiv
  rw [if_neg h]

theorem pydiv_zero {α : Type} [Field α] [DecidableEq α] (a : α) : pydiv a 0 = none := by
  unfold pydiv
  rw [if_pos rfl]

theorem getD_eq_getD {β : Type} (l : List β) (i : Nat) (d d2 : β) (h : i < l.length) :
    l.getD i d = l.getD i d2 := by
  rw [List.getD_eq_getElem _ _ h, List.getD_eq_getElem _ _ h]

theorem optMapM_map {β γ δ : Type} (f : γ → Option δ) (g : β → γ) (l : List β) :
    optMapM f (l.map g) = optMapM (fun x => f (g x)) l := by
  induction l with
  | nil => rfl
  | cons x xs ih => simp [optMapM, ih]

/-- The numerator computed by the code on a transposed row equals the
specification's per-dimension weighted sum. -/
theorem row_sum_eq {α : Type} [Field α] [Inhabited α] (chunks : List (List α))
    (weights : List Nat) (D d : Nat) (hD : ∀ e ∈ chunks, e.length = D) (hd : d < D) :
    (((chunks.map (fun l => l.getD d default)).zip weights).map
        (fun p => p.1 * (p.2 : α))).sum =
      ((chunks.zip weights).map (fun p => p.1.getD d 0 * (p.2 : α))).sum := by
  rw [List.zip_map_left, List.map_map]
  congr 1
  apply List.map_congr_left
  intro p hp
  have hmem := (List.of_mem_zip hp).1
  have hlen : d < p.1.length := by rw [hD p.1 hmem]; exact hd
  simp only [Function.comp, Prod.map, id_eq]
  rw [getD_eq_getD p.1 d default 0 hlen]

/-- The first division stage of the multi-chunk branch computes exactly the
specification's token-weighted average, when the chunk embeddings share a
dimension and the total weight is nonzero. -/
theorem aggregateOne_average {α : Type} [Field α] [DecidableEq α] [Inhabited α] [CharZero α]
    (chunks : List (List α)) (weights : List Nat) (D : Nat)
    (hne : chunks ≠ []) (hD : ∀ e ∈ chunks, e.length = D) (htw : weights.sum ≠ 0) :
    optMapM
        (fun row => pydiv (((row.zip weights).map (fun p => p.1 * (p.2 : α))).sum)
          ((weights.sum : α)))
        (pyZipStar chunks) =
      some (specWeightedAverage chunks weights) := by
  have hcast : ((weights.sum : α)) ≠ 0 := Nat.cast_ne_zero.mpr htw
  have hhead : (chunks.headD []).length = D := by
    cases chunks with
    | nil => exact absurd rfl hne
    | cons c cs => exact hD c (by simp)
  unfold pyZipStar specWeightedAverage
  rw [pyMinLen_const chunks D hne hD, hhead, optMapM_map]
  apply optMapM_map_some
  intro d hd
  have hdD : d < D := List.mem_range.mp hd
  rw [row_sum_eq chunks weights D d hD hdD, pydiv_of_ne _ hcast]

theorem getD_range {n i d : Nat} (h : i < n) : (List.range n).getD i d = i := by
  rw [List.getD_eq_getElem _ _ (by simpa using h), List.getElem_range]

theorem sum_sq_nonneg (v : List ℝ) : 0 ≤ (v.map (fun y => y * y)).sum := by
  apply List.sum_nonneg
  intro x hx
  obtain ⟨y, _, rfl⟩ := List.mem_map.mp hx
  exact mul_self_nonneg y

theorem aggregateOne_cons_cons {α : Type} [Field α] [DecidableEq α] [Inhabited α]
    (sqrt : α → α) (c1 c2 : List α) (rest : List (List α)) (weights : List Nat) :
    aggregateOne sqrt (c1 :: c2 :: rest) weights =
      match optMapM
          (fun row => pydiv (((row.zip weights).map (fun p => p.1 * (p.2 : α))).sum)
            ((weights.sum : α)))
          (pyZipStar (c1 :: c2 :: rest)) with
      | none => none
      | some average =>
        let magnitude := sqrt ((average.map (fun v => v * v)).sum)
        match optMapM (fun v => pydiv v magnitude) average with
        | none => none
        | some result => some (some result) := rfl

theorem specWeightedAverage_length {α : Type} [Field α] (chunks : List (List α))
    (weights : List Nat) :
    (specWeightedAverage chunks weights).length = (chunks.headD []).length := by
  simp [specWeightedAverage]

/-! ## Claim theorems -/

/-- C1: for every list of input texts and every assignment of chunk embeddings
and origin indices, when the aggregation step succeeds the post-pass returns
exactly one embedding per submitted input text; the entry at position `i` is
the aggregation of exactly the chunks with origin index `i` (so output order
matches input order), with the sentinel at position `i` replaced in place by
the empty-string embedding. -/
theorem process_output_aligned {α τ : Type} [Field α] [DecidableEq α] [Inhabited α]
    (sqrt : α → α) (numTexts : Nat) (tokens : List (List τ)) (batched : List (List α))
    (indices : List Nat) (skipEmpty : Bool) (emptyResp : List α)
    (es : List (Option (List α)))
    (h : processBatchedChunkedEmbeddings sqrt numTexts tokens batched indices skipEmpty =
      some es) :
    (fillEmptyEmbeddings emptyResp es).1.length = numTexts ∧
    ∀ i, i < numTexts →
      aggregateOne sqrt (selEmbeddings batched indices skipEmpty i)
          (selTokenLens tokens batched indices skipEmpty i) = some (es.getD i none) ∧
      (fillEmptyEmbeddings emptyResp es).1.getD i [] = (es.getD i none).getD emptyResp := by
  rw [process_eq_aggregate] at h
  obtain ⟨hlen, hidx⟩ := optMapM_eq_some h
  rw [List.length_range] at hlen
  constructor
  · rw [fillEmptyEmbeddings_fst, List.length_map, hlen]
  · intro i hi
    have h1 := hidx i 0 none (by simpa using hi)
    rw [getD_range hi] at h1
    refine ⟨h1, ?_⟩
    rw [fillEmptyEmbeddings_fst]
    exact getD_map_of_lt _ es i [] none (by rw [hlen]; exact hi)

/-- Witness for C1 at a concrete two-text input (one text with a single chunk,
one text with no chunks). -/
theorem process_output_aligned_witness :
    (processBatchedChunkedEmbeddings (fun x : ℚ => x) 2 [[5]] [[(1 : ℚ), 2]] [0] false =
      some [some [1, 2], none]) ∧
    ((fillEmptyEmbeddings [(9 : ℚ)] [some [1, 2], none]).1.length = 2 ∧
     ∀ i, i < 2 →
       aggregateOne (fun x : ℚ => x) (selEmbeddings [[(1 : ℚ), 2]] [0] false i)
           (selTokenLens ([[5]] : List (List Nat)) [[(1 : ℚ), 2]] [0] false i) =
         some ([some [1, 2], none].getD i none) ∧
       (fillEmptyEmbeddings [(9 : ℚ)] [some [1, 2], none]).1.getD i [] =
         ([some [1, 2], none].getD i none).getD [(9 : ℚ)]) :=
  ⟨by decide,
   process_output_aligned (fun x : ℚ => x) 2 [[5]] [[(1 : ℚ), 2]] [0] false [(9 : ℚ)]
     [some [1, 2], none] (by decide)⟩

/-- C3: an input text that contributes exactly one non-skipped chunk gets that
chunk's raw embedding verbatim: no averaging and no renormalization is applied. -/
theorem process_single_chunk_verbatim {α τ : Type} [Field α] [DecidableEq α] [Inhabited α]
    (sqrt : α → α) (numTexts : Nat) (tokens : List (List τ)) (batched : List (List α))
    (indices : List Nat) (skipEmpty : Bool) (es : List (Option (List α))) (i : Nat)
    (h : processBatchedChunkedEmbeddings sqrt numTexts tokens batched indices skipEmpty =
      some es)
    (hi : i < numTexts)
    (hone : (selEmbeddings batched indices skipEmpty i).length = 1) :
    es.getD i none = some ((selEmbeddings batched indices skipEmpty i).getD 0 []) := by
  rw [process_eq_aggregate] at h
  obtain ⟨hlen, hidx⟩ := optMapM_eq_some h
  have h1 := hidx i 0 none (by simpa using hi)
  rw [getD_range hi] at h1
  obtain ⟨e, he⟩ := List.length_eq_one.mp hone
  rw [he] at h1
  have h2 : aggregateOne sqrt [e]
      (selTokenLens tokens batched indices skipEmpty i) = some (some e) := rfl
  rw [h2] at h1
  rw [he]
  have h3 : some e = es.getD i none := Option.some_inj.mp h1
  rw [← h3]
  rfl

/-- Witness for C3 at a concrete single-chunk input. -/
theorem process_single_chunk_verbatim_witness :
    (processBatchedChunkedEmbeddings (fun x : ℚ => x) 1 [[7, 8]] [[(1 : ℚ), 2, 3]] [0]
      false = some [some [1, 2, 3]]) ∧
    (selEmbeddings [[(1 : ℚ), 2, 3]] [0] false 0).length = 1 ∧
    [some [(1 : ℚ), 2, 3]].getD 0 none =
      some ((selEmbeddings [[(1 : ℚ), 2, 3]] [0] false 0).getD 0 []) :=
  ⟨by decide, by decide,
   process_single_chunk_verbatim (fun x : ℚ => x) 1 [[7, 8]] [[(1 : ℚ), 2, 3]] [0] false
     [some [1, 2, 3]] 0 (by decide) (by decide) (by decide)⟩

/-- C2: for a text contributing at least two chunks of a common dimension, with
nonzero total token weight and nonzero norm of the weighted average, the
aggregated embedding is the token-count-weighted per-dimension average of the
chunk embeddings divided componentwise by its Euclidean norm. -/
theorem aggregate_weighted_normalized (chunks : List (List ℝ)) (weights : List Nat)
    (D : Nat) (h2 : 2 ≤ chunks.length) (hw : weights.length = chunks.length)
    (hD : ∀ e ∈ chunks, e.length = D) (htw : weights.sum ≠ 0)
    (hnorm : ((specWeightedAverage chunks weights).map (fun v => v * v)).sum ≠ 0) :
    aggregateOne Real.sqrt chunks weights =
      some (some (specL2Normalize Real.sqrt (specWeightedAverage chunks weights))) := by
  obtain ⟨c1, c2, rest, rfl⟩ : ∃ c1 c2 rest, chunks = c1 :: c2 :: rest := by
    cases chunks with
    | nil => simp at h2
    | cons c1 tl =>
      cases tl with
      | nil => simp at h2
      | cons c2 rest => exact ⟨c1, c2, rest, rfl⟩
  have havg := aggregateOne_average (c1 :: c2 :: rest) weights D (by simp) hD htw
  have hS : (0 : ℝ) <
      ((specWeightedAverage (c1 :: c2 :: rest) weights).map (fun v => v * v)).sum :=
    lt_of_le_of_ne (sum_sq_nonneg _) (Ne.symm hnorm)
  have hmagn : Real.sqrt
      (((specWeightedAverage (c1 :: c2 :: rest) weights).map (fun v => v * v)).sum) ≠ 0 :=
    ne_of_gt (Real.sqrt_pos.mpr hS)
  have hdiv := optMapM_map_some (f := fun v => pydiv v (Real.sqrt
      (((specWeightedAverage (c1 :: c2 :: rest) weights).map (fun v => v * v)).sum)))
    (g := fun v => v / Real.sqrt
      (((specWeightedAverage (c1 :: c2 :: rest) weights).map (fun v => v * v)).sum))
    (specWeightedAverage (c1 :: c2 :: rest) weights)
    (fun x _ => pydiv_of_ne x hmagn)
  rw [aggregateOne_cons_cons, havg]
  simp only [hdiv]
  rfl

/-- Witness for C2 at the spec's concrete instance: two chunks of token lengths
3 and 1 with embeddings `[1, 0]` and `[0, 1]`; the pre-normalization average is
`[3/4, 1/4]` and the result is that vector divided by its Euclidean norm. -/
theorem aggregate_weighted_normalized_witness :
    specWeightedAverage [[(1 : ℝ), 0], [0, 1]] [3, 1] = [3 / 4, 1 / 4] ∧
    aggregateOne Real.sqrt [[(1 : ℝ), 0], [0, 1]] [3, 1] =
      some (some (specL2Normalize Real.sqrt
        (specWeightedAverage [[(1 : ℝ), 0], [0, 1]] [3, 1]))) := by
  have havg : specWeightedAverage [[(1 : ℝ), 0], [0, 1]] [3, 1] = [3 / 4, 1 / 4] := by
    simp only [specWeightedAverage]
    norm_num [List.range_succ]
  refine ⟨havg, ?_⟩
  apply aggregate_weighted_normalized [[(1 : ℝ), 0], [0, 1]] [3, 1] 2
  · simp
  · simp
  · intro e he
    rcases List.mem_cons.mp he with rfl | he2
    · rfl
    · rcases List.mem_cons.mp he2 with rfl | he3
      · rfl
      · simp at he3
  · decide
  · rw [havg]
    norm_num

/-- C4 counterexample: a multi-chunk aggregation input whose total chunk weight
is zero (two zero-dimensional chunk embeddings with zero token lengths)
succeeds and returns an empty embedding instead of failing with an error. -/
theorem aggregate_degenerate_counterexample :
    aggregateOne Real.sqrt ([[], []] : List (List ℝ)) [0, 0] = some (some []) := rfl

/-- C4 amended: for a text contributing at least two chunks whose embeddings
share a common dimension of at least 1, a zero total token weight or an
all-zero weighted average makes the aggregation fail with an explicit error
(modelling Python's ZeroDivisionError) rather than return any embedding. -/
theorem aggregate_degenerate_fails (chunks : List (List ℝ)) (weights : List Nat)
    (D : Nat) (h2 : 2 ≤ chunks.length) (hw : weights.length = chunks.length)
    (hD : ∀ e ∈ chunks, e.length = D) (hD1 : 1 ≤ D)
    (hdeg : weights.sum = 0 ∨ ∀ x ∈ specWeightedAverage chunks weights, x = 0) :
    aggregateOne Real.sqrt chunks weights = none := by
  obtain ⟨c1, c2, rest, rfl⟩ : ∃ c1 c2 rest, chunks = c1 :: c2 :: rest := by
    cases chunks with
    | nil => simp at h2
    | cons c1 tl =>
      cases tl with
      | nil => simp at h2
      | cons c2 rest => exact ⟨c1, c2, rest, rfl⟩
  rw [aggregateOne_cons_cons]
  by_cases htw : weights.sum = 0
  · have hmin : pyMinLen (c1 :: c2 :: rest) = D :=
      pyMinLen_const (c1 :: c2 :: rest) D (by simp) hD
    obtain ⟨D', rfl⟩ : ∃ D', D = D' + 1 := ⟨D - 1, by omega⟩
    have hcast : ((weights.sum : ℝ)) = 0 := by rw [htw]; simp
    unfold pyZipStar
    rw [hmin, List.range_succ_eq_map, List.map_cons]
    simp only [optMapM, hcast, pydiv_zero]
  · have hzero : ∀ x ∈ specWeightedAverage (c1 :: c2 :: rest) weights, x = 0 := by
      rcases hdeg with hdeg | hdeg
      · exact absurd hdeg htw
      · exact hdeg
    have havg := aggregateOne_average (c1 :: c2 :: rest) weights D (by simp) hD htw
    rw [havg]
    have hsum : ((specWeightedAverage (c1 :: c2 :: rest) weights).map
        (fun v => v * v)).sum = 0 := by
      apply List.sum_eq_zero
      intro y hy
      obtain ⟨x, hx, rfl⟩ := List.mem_map.mp hy
      rw [hzero x hx]
      ring
    obtain ⟨a, as, hA⟩ : ∃ a as, specWeightedAverage (c1 :: c2 :: rest) weights = a :: as := by
      have hlen : (specWeightedAverage (c1 :: c2 :: rest) weights).length = D := by
        rw [specWeightedAverage_length]
        exact hD c1 (by simp)
      cases hc : specWeightedAverage (c1 :: c2 :: rest) weights with
      | nil => rw [hc] at hlen; simp at hlen; omega
      | cons a as => exact ⟨a, as, rfl⟩
    rw [hA] at hsum ⊢
    simp only [hsum, Real.sqrt_zero, optMapM, pydiv_zero]

/-- Witness for the amended C4: two one-dimensional chunks with zero token
lengths make the aggregation abort. -/
theorem aggregate_degenerate_fails_witness :
    (2 ≤ ([[(1 : ℝ)], [2]] : List (List ℝ)).length) ∧
    aggregateOne Real.sqrt ([[(1 : ℝ)], [2]] : List (List ℝ)) [0, 0] = none := by
  refine ⟨by simp, ?_⟩
  apply aggregate_degenerate_fails [[(1 : ℝ)], [2]] [0, 0] 1
  · simp
  · simp
  · intro e he
    rcases List.mem_cons.mp he with rfl | he2
    · rfl
    · rcases List.mem_cons.mp he2 with rfl | he3
      · rfl
      · simp at he3
  · exact le_refl 1
  · exact Or.inl (by decide)

/-- C5 counterexample: with `skip_empty` set, a chunk with a nonzero reported
token length (3 tokens) is nevertheless excluded from aggregation because its
returned embedding has length 1, and its text falls back to the sentinel. -/
theorem skip_empty_counterexample :
    selEmbeddings [[(2 : ℚ)]] [0] true 0 = [] ∧
    (([[7, 8, 9]] : List (List Nat)).getD 0 []).length = 3 ∧
    processBatchedChunkedEmbeddings (fun x : ℚ => x) 1 [[7, 8, 9]] [[(2 : ℚ)]] [0] true =
      some [none] := by
  decide

/-- C5 amended: when `skip_empty` is set, aggregation for text `i` considers
exactly the chunks with origin index `i` whose returned embedding does not have
length 1; the reported token length is not consulted by the skip test. -/
theorem skip_empty_considers_embedding_length {α τ : Type} (numTexts : Nat)
    (tokens : List (List τ)) (batched : List (List α)) (indices : List Nat) (i : Nat)
    (hi : i < numTexts) :
    (collectChunks numTexts tokens batched indices true).1.getD i [] =
      ((List.range indices.length).filter
        (fun j => indices.getD j 0 == i && (batched.getD j []).length != 1)).map
        (fun j => batched.getD j []) ∧
    (collectChunks numTexts tokens batched indices true).2.getD i [] =
      ((List.range indices.length).filter
        (fun j => indices.getD j 0 == i && (batched.getD j []).length != 1)).map
        (fun j => (tokens.getD j []).length) := by
  have h := collectChunks_getD numTexts tokens batched indices true i hi
  have hfilter : keptChunkIdxs batched indices true i =
      (List.range indices.length).filter
        (fun j => indices.getD j 0 == i && (batched.getD j []).length != 1) := by
    unfold keptChunkIdxs
    apply List.filter_congr
    intro j _
    simp only [bne]
    cases hc : (batched.getD j []).length == 1 <;>
      cases hx : indices.getD j 0 == i <;> rfl
  constructor
  · rw [h.1]
    unfold selEmbeddings
    rw [hfilter]
  · rw [h.2]
    unfold selTokenLens
    rw [hfilter]

/-- Witness for the amended C5 at a concrete input: the 1-dimensional embedding
is dropped, the 2-dimensional one is kept. -/
theorem skip_empty_considers_embedding_length_witness :
    (collectChunks 1 ([[7, 8, 9], []] : List (List Nat))
        [[(2 : ℚ)], [3, 4]] [0, 0] true).1.getD 0 [] =
      ((List.range ([0, 0] : List Nat).length).filter
        (fun j => ([0, 0] : List Nat).getD j 0 == 0 &&
          (([[(2 : ℚ)], [3, 4]]).getD j []).length != 1)).map
        (fun j => ([[(2 : ℚ)], [3, 4]]).getD j []) ∧
    (collectChunks 1 ([[7, 8, 9], []] : List (List Nat))
        [[(2 : ℚ)], [3, 4]] [0, 0] true).2.getD 0 [] =
      ((List.range ([0, 0] : List Nat).length).filter
        (fun j => ([0, 0] : List Nat).getD j 0 == 0 &&
          (([[(2 : ℚ)], [3, 4]]).getD j []).length != 1)).map
        (fun j => (([[7, 8, 9], []] : List (List Nat)).getD j []).length) :=
  skip_empty_considers_embedding_length 1 [[7, 8, 9], []] [[(2 : ℚ)], [3, 4]] [0, 0] 0
    (by decide)

theorem agetLenSafe_eq_getLenSafe {σ τ α : Type} [Field α] [DecidableEq α] [Inhabited α]
    (C : EmbClient σ τ α) (encode : σ → List τ) (sqrt : α → α)
    (ctxLen chunkSize : Nat) (skipEmpty : Bool) (texts : List σ) :
    agetLenSafeEmbeddings C encode sqrt ctxLen chunkSize skipEmpty texts =
      getLenSafeEmbeddings C encode sqrt ctxLen chunkSize skipEmpty texts := rfl

/-- C6: in a top-level length-safe embedding call, every input text that
tokenizes to zero tokens receives the cached empty-string embedding, and the
extra empty-string client call is issued at most once per call no matter how
many inputs are empty; the asynchronous variant performs the same computation. -/
theorem empty_input_cached {σ τ α : Type} [Field α] [DecidableEq α] [Inhabited α]
    [Inhabited σ] (C : EmbClient σ τ α) (encode : σ → List τ) (sqrt : α → α)
    (ctxLen chunkSize : Nat) (skipEmpty : Bool) (texts : List σ)
    (res : List (List α)) (cnt : Nat)
    (h : getLenSafeEmbeddings C encode sqrt ctxLen chunkSize skipEmpty texts =
      some (res, cnt)) :
    agetLenSafeEmbeddings C encode sqrt ctxLen chunkSize skipEmpty texts =
      some (res, cnt) ∧
    cnt ≤ 1 ∧
    ∀ i, i < texts.length → encode (texts.getD i default) = [] →
      res.getD i [] = C.createEmpty := by
  refine ⟨(agetLenSafe_eq_getLenSafe C encode sqrt ctxLen chunkSize skipEmpty texts).trans h,
    ?_, ?_⟩
  all_goals
    simp only [getLenSafeEmbeddings] at h
  all_goals
    cases hp : processBatchedChunkedEmbeddings sqrt texts.length
        (tokenizeTexts encode ctxLen texts).1
        ((chunkSlices chunkSize (tokenizeTexts encode ctxLen texts).1).flatMap C.createBatch)
        (tokenizeTexts encode ctxLen texts).2 skipEmpty with
    | none => rw [hp] at h; simp at h
    | some es => ?_
  all_goals
    rw [hp] at h
    simp only [Option.some_inj] at h
  · have hc : cnt = (fillEmptyEmbeddings C.createEmpty es).2 := by rw [h]
    rw [hc]
    exact fillEmptyEmbeddings_calls_le_one C.createEmpty es
  · intro i hi hempty
    rw [process_eq_aggregate] at hp
    obtain ⟨hlen, hidx⟩ := optMapM_eq_some hp
    rw [List.length_range] at hlen
    have hcount := tokenize_count_eq_zero encode ctxLen texts i hi hempty
    have hnotmem : i ∉ (tokenizeTexts encode ctxLen texts).2 :=
      List.count_eq_zero.mp hcount
    have hkept := keptChunkIdxs_eq_nil
      ((chunkSlices chunkSize (tokenizeTexts encode ctxLen texts).1).flatMap C.createBatch)
      (tokenizeTexts encode ctxLen texts).2 skipEmpty i hnotmem
    have h1 := hidx i 0 none (by simpa using hi)
    rw [getD_range hi] at h1
    have hsel : selEmbeddings
        ((chunkSlices chunkSize (tokenizeTexts encode ctxLen texts).1).flatMap C.createBatch)
        (tokenizeTexts encode ctxLen texts).2 skipEmpty i = [] := by
      unfold selEmbeddings
      rw [hkept]
      rfl
    have hselw : selTokenLens (tokenizeTexts encode ctxLen texts).1
        ((chunkSlices chunkSize (tokenizeTexts encode ctxLen texts).1).flatMap C.createBatch)
        (tokenizeTexts encode ctxLen texts).2 skipEmpty i = [] := by
      unfold selTokenLens
      rw [hkept]
      rfl
    rw [hsel, hselw] at h1
    have h2 : aggregateOne sqrt ([] : List (List α)) ([] : List Nat) = some none := rfl
    rw [h2] at h1
    have h3 : none = es.getD i none := Option.some_inj.mp h1
    have hres : res = (fillEmptyEmbeddings C.createEmpty es).1 := by rw [h]
    rw [hres, fillEmptyEmbeddings_fst]
    rw [getD_map_of_lt _ es i [] none (by rw [hlen]; exact hi)]
    rw [← h3]
    rfl

/-- Client used by concrete witnesses: two-dimensional embeddings for chunks,
a fixed embedding for the empty string. -/
def witnessClient : EmbClient (List Nat) Nat ℚ :=
  { createBatch := fun b => b.map (fun _ => [1, 1]),
    createText := fun _ => [[2]],
    createEmpty := [7] }

/-- Witness for C6 at a concrete input with one empty and one non-empty text. -/
theorem empty_input_cached_witness :
    (getLenSafeEmbeddings witnessClient (fun t : List Nat => t) (fun x : ℚ => x)
        2 10 false [[], [5]] = some ([[7], [1, 1]], 1)) ∧
    (agetLenSafeEmbeddings witnessClient (fun t : List Nat => t) (fun x : ℚ => x)
        2 10 false [[], [5]] = some ([[7], [1, 1]], 1) ∧
     1 ≤ 1 ∧
     ∀ i, i < ([[], [5]] : List (List Nat)).length →
       (fun t : List Nat => t) (([[], [5]] : List (List Nat)).getD i default) = [] →
       ([[7], [1, 1]] : List (List ℚ)).getD i [] = witnessClient.createEmpty) :=
  ⟨by decide,
   empty_input_cached witnessClient (fun t : List Nat => t) (fun x : ℚ => x)
     2 10 false [[], [5]] [[7], [1, 1]] 1 (by decide)⟩

/-- C7: for a context limit L of at least 1, an input text whose token sequence
has exactly k*L+1 tokens is split into k+1 chunks, the first k of length L and
the last of length 1, and the chunk planner records exactly k+1 origin-index
entries carrying that input's ordinal. -/
theorem chunking_property {σ τ : Type} [Inhabited σ] (encode : σ → List τ) (L k : Nat)
    (texts : List σ) (i : Nat) (hL : 1 ≤ L) (hi : i < texts.length)
    (hk : (encode (texts.getD i default)).length = k * L + 1) :
    (chunkSlices L (encode (texts.getD i default))).length = k + 1 ∧
    (∀ m, m < k →
      ((chunkSlices L (encode (texts.getD i default))).getD m []).length = L) ∧
    ((chunkSlices L (encode (texts.getD i default))).getD k []).length = 1 ∧
    (tokenizeTexts encode L texts).2.count i = k + 1 := by
  have hdiv : ((encode (texts.getD i default)).length + L - 1) / L = k + 1 := by
    rw [hk]
    have h1 : k * L + 1 + L - 1 = k * L + L := by omega
    have h2 : k * L + L = L * (k + 1) := by ring
    rw [h1, h2, Nat.mul_div_cancel_left _ (by omega : 0 < L)]
  have hlen : (chunkSlices L (encode (texts.getD i default))).length = k + 1 := by
    unfold chunkSlices
    rw [List.length_map, List.length_range, hdiv]
  refine ⟨hlen, ?_, ?_, ?_⟩
  · intro m hm
    unfold chunkSlices
    rw [getD_range_map _ _ _ _ (by rw [hdiv]; omega)]
    rw [List.length_take, List.length_drop, hk]
    have hmul : m * L + L ≤ k * L := by
      have h3 := Nat.mul_le_mul_right L (show m + 1 ≤ k by omega)
      rw [Nat.succ_mul] at h3
      exact h3
    exact Nat.min_eq_left (by omega)
  · unfold chunkSlices
    rw [getD_range_map _ _ _ _ (by rw [hdiv]; omega)]
    rw [List.length_take, List.length_drop, hk]
    have h4 : k * L + 1 - k * L = 1 := by omega
    rw [h4]
    exact Nat.min_eq_right (by omega)
  · unfold tokenizeTexts
    rw [tokenizeAux_count]
    rw [if_pos ⟨Nat.zero_le i, by simpa using hi⟩]
    rw [Nat.sub_zero, hlen]

/-- Witness for C7: context limit 2, a three-token text splits into a chunk of
length 2 and a chunk of length 1, both recorded with ordinal 0. -/
theorem chunking_property_witness :
    (chunkSlices 2 ((fun t : List Nat => t) (([[7, 8, 9]] : List (List Nat)).getD 0
      default))).length = 1 + 1 ∧
    (∀ m, m < 1 →
      ((chunkSlices 2 ((fun t : List Nat => t) (([[7, 8, 9]] : List (List Nat)).getD 0
        default))).getD m []).length = 2) ∧
    ((chunkSlices 2 ((fun t : List Nat => t) (([[7, 8, 9]] : List (List Nat)).getD 0
      default))).getD 1 []).length = 1 ∧
    (tokenizeTexts (fun t : List Nat => t) 2 [[7, 8, 9]]).2.count 0 = 1 + 1 :=
  chunking_property (fun t : List Nat => t) 2 1 [[7, 8, 9]] 0 (by decide) (by decide)
    (by decide)

theorem exceptBind_ok {ε β γ : Type} (a : β) (k : β → Except ε γ) :
    (Except.ok a >>= k : Except ε γ) = k a := rfl

theorem exceptBind_error {ε β γ : Type} (e : ε) (k : β → Except ε γ) :
    (Except.error e >>= k : Except ε γ) = Except.error e := rfl

theorem exceptThrow {ε β : Type} (e : ε) : (throw e : Except ε β) = Except.error e := rfl

/-- C8: the synchronous `_generate` aborts with the response's error payload,
but the asynchronous `_agenerate` has no error-field check: a response carrying
both an error payload and a choices list makes the synchronous call abort with
that error while the asynchronous call consumes it as a success and returns a
result, contradicting the claim for the asynchronous path. -/
theorem agenerate_ignores_error_field :
    generateModel
        (fun _ => { error := some "boom",
                    choices := some [{ text := "hi", finishReason := some "stop",
                                       logprobs := none }],
                    usage := [] })
        (fun _ => []) false 20 1 256 false false ["p"] =
      .error (.apiError "boom") ∧
    agenerateModel
        (fun _ => { error := some "boom",
                    choices := some [{ text := "hi", finishReason := some "stop",
                                       logprobs := none }],
                    usage := [] })
        (fun _ => []) false 20 1 256 false false ["p"] =
      .ok ([[{ text := "hi", finishReason := some "stop", logprobs := none }]], []) := by
  constructor <;> rfl

/-- C9 counterexample: with batch size 1 every sub-prompt batch is a singleton,
so a streaming call with two prompts is never rejected: both prompts are
streamed (one remote call each) and a normal result is returned. -/
theorem streaming_multi_prompt_not_rejected :
    generateModel (fun _ => { error := none, choices := none, usage := [] })
        (fun _ => [{ choices := [{ text := "x", finishReason := some "stop",
                                   logprobs := none }] }])
        true 1 1 256 false false ["a", "b"] =
      .ok ([[{ text := "x", finishReason := some "stop", logprobs := none }],
            [{ text := "x", finishReason := some "stop", logprobs := none }]], []) := by
  rfl

/-- C9 amended: streaming with n at least 2 or best_of at least 2 is rejected
at construction; streaming with more than one prompt is rejected inside
generation before the first remote call (independently of any client response)
provided the batch size is at least 2, so that several prompts share a
dispatch batch.  With batch size 1 the multi-prompt case is not rejected (see
the counterexample). -/
theorem streaming_invalid_params_rejected :
    (∀ n bestOf : Nat, 2 ≤ n →
      validateEnvironment true n bestOf = .error "Cannot stream results when n > 1.") ∧
    (∀ bestOf : Nat, 2 ≤ bestOf →
      validateEnvironment true 1 bestOf =
        .error "Cannot stream results when best_of > 1.") ∧
    (∀ (client : List String → CompletionResponse)
       (streamClient : String → List StreamResponse) (n : Nat) (maxTokens : Int)
       (batchSize : Nat) (prompts : List String),
       2 ≤ batchSize → 2 ≤ prompts.length → maxTokens ≠ -1 →
       generateModel client streamClient true batchSize n maxTokens false false prompts =
         .error .multiPromptStream) := by
  refine ⟨?_, ?_, ?_⟩
  · intro n bestOf hn
    unfold validateEnvironment
    rw [if_neg (by omega)]
    rw [if_pos (by simp only [Bool.true_and, decide_eq_true_eq]; omega)]
  · intro bestOf hb
    unfold validateEnvironment
    rw [if_neg (by omega)]
    rw [if_neg (by simp only [Bool.true_and, decide_eq_true_eq]; omega)]
    rw [if_pos (by simp only [Bool.true_and, decide_eq_true_eq]; omega)]
  · intro client streamClient n maxTokens batchSize prompts hB hP hmt
    have hmt' : (maxTokens == -1) = false := beq_eq_false_iff_ne.mpr hmt
    have hsub : getSubPrompts batchSize maxTokens false false prompts =
        .ok (chunkSlices batchSize prompts) := by
      unfold getSubPrompts
      rw [hmt']
      rfl
    obtain ⟨q, hq⟩ : ∃ q, (prompts.length + batchSize - 1) / batchSize = q + 1 := by
      have h1 : 1 ≤ (prompts.length + batchSize - 1) / batchSize :=
        (Nat.le_div_iff_mul_le (by omega)).mpr (by omega)
      exact ⟨(prompts.length + batchSize - 1) / batchSize - 1, by omega⟩
    have hfirst : ((prompts.drop (0 * batchSize)).take batchSize).length > 1 := by
      rw [List.length_take, List.length_drop]
      omega
    unfold generateModel
    rw [hsub, exceptBind_ok]
    unfold chunkSlices
    rw [hq, List.range_succ_eq_map, List.map_cons, List.foldlM_cons]
    simp only []
    rw [if_pos trivial, if_pos hfirst, exceptThrow, exceptBind_error, exceptBind_error]

/-- Witness for the amended C9: n = 2 and best_of = 2 rejected at construction,
and a streaming call with two prompts and batch size 2 rejected before any
request. -/
theorem streaming_invalid_params_rejected_witness :
    validateEnvironment true 2 1 = .error "Cannot stream results when n > 1." ∧
    validateEnvironment true 1 2 = .error "Cannot stream results when best_of > 1." ∧
    generateModel (fun _ => { error := none, choices := none, usage := [] })
        (fun _ => []) true 2 1 256 false false ["a", "b"] =
      .error .multiPromptStream :=
  ⟨streaming_invalid_params_rejected.1 2 1 (by omega),
   streaming_invalid_params_rejected.2.1 2 (by omega),
   streaming_invalid_params_rejected.2.2 _ _ 1 256 2 ["a", "b"] (by omega) (by decide)
     (by decide)⟩

theorem getLenSafe_length {σ τ α : Type} [Field α] [DecidableEq α] [Inhabited α]
    (C : EmbClient σ τ α) (encode : σ → List τ) (sqrt : α → α)
    (ctxLen chunkSize : Nat) (skipEmpty : Bool) (texts : List σ)
    (res : List (List α)) (cnt : Nat)
    (h : getLenSafeEmbeddings C encode sqrt ctxLen chunkSize skipEmpty texts =
      some (res, cnt)) : res.length = texts.length := by
  simp only [getLenSafeEmbeddings] at h
  cases hp : processBatchedChunkedEmbeddings sqrt texts.length
      (tokenizeTexts encode ctxLen texts).1
      ((chunkSlices chunkSize (tokenizeTexts encode ctxLen texts).1).flatMap C.createBatch)
      (tokenizeTexts encode ctxLen texts).2 skipEmpty with
  | none => rw [hp] at h; simp at h
  | some es =>
    rw [hp] at h
    simp only [Option.some_inj] at h
    rw [process_eq_aggregate] at hp
    obtain ⟨hlen, _⟩ := optMapM_eq_some hp
    rw [List.length_range] at hlen
    have hres : res = (fillEmptyEmbeddings C.createEmpty es).1 := by rw [h]
    rw [hres, fillEmptyEmbeddings_fst, List.length_map, hlen]

/-- C10: `embed_query` returns exactly the first element of
`embed_documents([text])` and `aembed_query` the first element of
`aembed_documents([text])`; the asynchronous document path computes the same
value as the synchronous one, and for a single-text call the returned list has
exactly one element, so the query embedding is that only element. -/
theorem embed_query_consistent {σ τ α : Type} [Field α] [DecidableEq α] [Inhabited α]
    (C : EmbClient σ τ α) (encode : σ → List τ) (sqrt : α → α)
    (ctxLen chunkSize : Nat) (skipEmpty checkCtx : Bool) (text : σ)
    (htext : ∀ t, (C.createText t).length = 1) :
    embedQuery C encode sqrt ctxLen chunkSize skipEmpty checkCtx text =
      (embedDocuments C encode sqrt ctxLen chunkSize skipEmpty checkCtx [text]).bind
        List.head? ∧
    aembedQuery C encode sqrt ctxLen chunkSize skipEmpty checkCtx text =
      (aembedDocuments C encode sqrt ctxLen chunkSize skipEmpty checkCtx [text]).bind
        List.head? ∧
    aembedDocuments C encode sqrt ctxLen chunkSize skipEmpty checkCtx [text] =
      embedDocuments C encode sqrt ctxLen chunkSize skipEmpty checkCtx [text] ∧
    ∀ l, embedDocuments C encode sqrt ctxLen chunkSize skipEmpty checkCtx [text] =
        some l →
      l.length = 1 ∧
      embedQuery C encode sqrt ctxLen chunkSize skipEmpty checkCtx text =
        some (l.getD 0 []) ∧
      aembedQuery C encode sqrt ctxLen chunkSize skipEmpty checkCtx text =
        some (l.getD 0 []) := by
  refine ⟨rfl, rfl, rfl, ?_⟩
  intro l hl
  have hlen : l.length = 1 := by
    unfold embedDocuments at hl
    by_cases hc : checkCtx = true
    · rw [if_pos hc] at hl
      cases hg : getLenSafeEmbeddings C encode sqrt ctxLen chunkSize skipEmpty [text] with
      | none => rw [hg] at hl; simp at hl
      | some rc =>
        obtain ⟨res, cnt⟩ := rc
        rw [hg] at hl
        have hl' : res = l := by simpa using hl
        rw [← hl']
        exact getLenSafe_length C encode sqrt ctxLen chunkSize skipEmpty [text] res cnt hg
    · rw [if_neg hc] at hl
      have hl' : C.createText text ++ [] = l := by simpa using hl
      rw [← hl']
      simp [htext text]
  refine ⟨hlen, ?_, ?_⟩
  · obtain ⟨x, hx⟩ := List.length_eq_one.mp hlen
    show (embedDocuments C encode sqrt ctxLen chunkSize skipEmpty checkCtx [text]).bind
        List.head? = some (l.getD 0 [])
    rw [hl, hx]
    rfl
  · obtain ⟨x, hx⟩ := List.length_eq_one.mp hlen
    show (aembedDocuments C encode sqrt ctxLen chunkSize skipEmpty checkCtx [text]).bind
        List.head? = some (l.getD 0 [])
    rw [show aembedDocuments C encode sqrt ctxLen chunkSize skipEmpty checkCtx [text] =
        embedDocuments C encode sqrt ctxLen chunkSize skipEmpty checkCtx [text] from rfl]
    rw [hl, hx]
    rfl

/-- Witness for C10 at a concrete single-text call through the length-safe
pipeline. -/
theorem embed_query_consistent_witness :
    (∀ t : List Nat, (witnessClient.createText t).length = 1) ∧
    (embedQuery witnessClient (fun t : List Nat => t) (fun x : ℚ => x) 2 10 false true
        [5] =
      (embedDocuments witnessClient (fun t : List Nat => t) (fun x : ℚ => x) 2 10 false
        true [[5]]).bind List.head? ∧
     aembedQuery witnessClient (fun t : List Nat => t) (fun x : ℚ => x) 2 10 false true
        [5] =
      (aembedDocuments witnessClient (fun t : List Nat => t) (fun x : ℚ => x) 2 10 false
        true [[5]]).bind List.head? ∧
     aembedDocuments witnessClient (fun t : List Nat => t) (fun x : ℚ => x) 2 10 false
        true [[5]] =
      embedDocuments witnessClient (fun t : List Nat => t) (fun x : ℚ => x) 2 10 false
        true [[5]] ∧
     ∀ l, embedDocuments witnessClient (fun t : List Nat => t) (fun x : ℚ => x) 2 10
         false true [[5]] = some l →
       l.length = 1 ∧
       embedQuery witnessClient (fun t : List Nat => t) (fun x : ℚ => x) 2 10 false true
         [5] = some (l.getD 0 []) ∧
       aembedQuery witnessClient (fun t : List Nat => t) (fun x : ℚ => x) 2 10 false
         true [5] = some (l.getD 0 [])) :=
  ⟨fun _ => rfl,
   embed_query_consistent witnessClient (fun t : List Nat => t) (fun x : ℚ => x) 2 10
     false true [5] (fun _ => rfl)⟩

end CompressaModel
